import Mathlib

/-!
Verification of the dynamic portfolio allocation engine
(`backend/python/dynamic_allocation.py`, class `DynamicAllocationService`).

The numeric pipeline is embedded over `ℚ`.  Weight dictionaries are
represented by a list of symbols (the dictionary keys, in insertion order)
together with a total function `String → ℚ`; every dictionary that the
source manipulates has exactly the portfolio symbols as keys, and the
embedding only ever reads values at those keys.  The calls into
`scipy.optimize.minimize` and `numpy.linalg` are not deterministic
closed-form computations, so each solver invocation is abstracted by an
explicit outcome parameter: `some`/success carries the solution vector the
solver produced, `none` stands for a raised exception (for SLSQP, a
`result.success = false` outcome is also modelled).  Everything downstream
of the solvers — the ensemble blend, the regime tilts, the constraint
projector and the orchestrator — is translated directly from the source.
-/

-- Mathlib seals the arithmetic of `ℚ` for elaboration performance; the
-- concrete counterexample runs below evaluate the embedded pipeline on
-- explicit rational inputs, which needs these operations to unfold again.
set_option allowUnsafeReducibility true in
attribute [semireducible] Rat.add Rat.sub Rat.neg Rat.mul Rat.inv Rat.div

set_option maxRecDepth 10000

/-- `allocation_constraints['min_weight']` (line 37 of the source). -/
def min_weight : ℚ := 0

/-- `allocation_constraints['max_weight']` (line 38). -/
def max_weight : ℚ := 2/5

/-- `allocation_constraints['max_turnover']` (line 39). -/
def max_turnover : ℚ := 1/5

/-- `allocation_constraints['min_diversification']` (line 40). -/
def min_diversification : ℕ := 3

/-- Sum of a weight dictionary's values: the dictionary's keys are
`symbols`, so `sum(d.values())` is the sum of `w` over `symbols`. -/
def sumOver (symbols : List String) (w : String → ℚ) : ℚ :=
  (symbols.map w).sum

/-- ASCII upper-casing of one character code (`str.upper` acts exactly
like this on the ticker symbols' ASCII range). -/
def upperCode (n : ℕ) : ℕ := if 97 ≤ n ∧ n ≤ 122 then n - 32 else n

/-- The character codes of `symbol.upper()`. -/
def strCodes (s : String) : List ℕ := s.toList.map fun c => upperCode c.toNat

/-- The character codes of a (already upper-case) ticker pattern. -/
def patCodes (s : String) : List ℕ := s.toList.map Char.toNat

/-- Whether `p` is an initial segment of the second list. -/
def isPrefixCodes : List ℕ → List ℕ → Bool
  | [], _ => true
  | _ :: _, [] => false
  | a :: as, b :: bs => a == b && isPrefixCodes as bs

/-- Whether `p` occurs contiguously inside the second list — Python's
substring test `p in s`. -/
def isSubCodes (p : List ℕ) : List ℕ → Bool
  | [] => isPrefixCodes p []
  | b :: bs => isPrefixCodes p (b :: bs) || isSubCodes p bs

/-- Python's `any(pat in symbol.upper() for pat in pats)`: substring
containment of any pattern in the upper-cased symbol. -/
def tickerMatch (symbol : String) (pats : List String) : Bool :=
  pats.any fun p => isSubCodes (patCodes p) (strCodes symbol)

/-- The growth ticker list of `apply_regime_tilts` (line 577). -/
def growthTickers : List String := ["QQQ", "TQQQ", "ARKK"]

/-- The defensive ticker list of `apply_regime_tilts` (line 581). -/
def defensiveTickers : List String := ["TLT", "GLD", "VTI"]

/-- The bond ticker list of `apply_regime_tilts` (lines 585 and 587). -/
def bondTickers : List String := ["TLT", "BND", "AGG"]

/-- The `regime_tilts` dictionary of `apply_regime_tilts` (lines 547-567),
keyed by regime name; each regime maps to an association list of tilt
names and magnitudes. -/
def regime_tilts : String → List (String × ℚ)
  | "Bull" => [("growth_bias", 1/10), ("reduce_bonds", -(1/20)),
               ("increase_momentum", 1/20)]
  | "Bear" => [("defensive_bias", 3/20), ("reduce_growth", -(1/10)),
               ("increase_bonds", 1/10), ("add_gold", 1/20)]
  | "Volatile" => [("reduce_concentration", 1/10),
                   ("add_volatility_hedge", 1/20), ("reduce_leverage", -(1/20))]
  | "Stable" => [("balanced_approach", 0)]
  | _ => []

/-- The per-symbol `adjustment` accumulated in the loop of
`apply_regime_tilts` (lines 572-588): a tilt is added only when its key is
present in the regime's tilt dictionary and the symbol matches the
corresponding ticker list; the two bond tilts are an `if`/`elif` chain. -/
def regimeAdjustment (market_regime : String) (regime_confidence : ℚ)
    (symbol : String) : ℚ :=
  let tilts := regime_tilts market_regime
  (if (tilts.lookup "growth_bias").isSome ∧ tickerMatch symbol growthTickers then
    (tilts.lookup "growth_bias").getD 0 * regime_confidence else 0)
  + (if (tilts.lookup "defensive_bias").isSome ∧ tickerMatch symbol defensiveTickers then
    (tilts.lookup "defensive_bias").getD 0 * regime_confidence else 0)
  + (if (tilts.lookup "reduce_bonds").isSome ∧ tickerMatch symbol bondTickers then
    (tilts.lookup "reduce_bonds").getD 0 * regime_confidence
    else if (tilts.lookup "increase_bonds").isSome ∧ tickerMatch symbol bondTickers then
    (tilts.lookup "increase_bonds").getD 0 * regime_confidence else 0)

/-- `apply_regime_tilts` (lines 539-598): add the confidence-scaled
adjustment to every entry, clip at zero (`max(0, weight + adjustment)`,
line 591), then renormalize when the total is positive (lines 594-596). -/
def apply_regime_tilts (symbols : List String) (optimal_weights : String → ℚ)
    (market_regime : String) (regime_confidence : ℚ) : String → ℚ :=
  let tilted := fun s =>
    max 0 (optimal_weights s + regimeAdjustment market_regime regime_confidence s)
  let total := sumOver symbols tilted
  if 0 < total then fun s => tilted s / total else tilted

/-- Step (a) of `apply_allocation_constraints` (lines 612-614): cap each
weight at `max_weight`.  The dictionary's keys are exactly `symbols`, so
the update is pointwise. -/
def capWeights (w : String → ℚ) : String → ℚ :=
  fun s => if max_weight < w s then max_weight else w s

/-- Step (b) of `apply_allocation_constraints` (lines 617-619): zero every
weight below `min_weight`. -/
def floorWeights (w : String → ℚ) : String → ℚ :=
  fun s => if w s < min_weight then 0 else w s

/-- `non_zero_positions` (line 622): the number of dictionary values
above 1%. -/
def nonZeroPositions (symbols : List String) (w : String → ℚ) : ℕ :=
  (symbols.filter fun s => (1:ℚ)/100 < w s).length

/-- Stable insertion of `a` into a list already sorted by weight
descending: `a` goes in front of the first element whose weight does not
exceed `w a`, so earlier-listed symbols stay in front on ties. -/
def insertDesc (w : String → ℚ) (a : String) : List String → List String
  | [] => [a]
  | b :: bs => if w b ≤ w a then a :: b :: bs else b :: insertDesc w a bs

/-- Stable sort by weight, descending.  A stable sort's output is uniquely
determined by the key ordering and the input order, so this insertion
sort coincides with Python's stable `sorted(..., reverse=True)`. -/
def sortDesc (w : String → ℚ) : List String → List String
  | [] => []
  | a :: as => insertDesc w a (sortDesc w as)

/-- `top_symbols` (line 625): symbols sorted by weight, descending,
stably (`sorted(symbols, key=lambda s: constrained_weights[s],
reverse=True)`). -/
def topSymbols (symbols : List String) (w : String → ℚ) : List String :=
  sortDesc w symbols

/-- Step (c) of `apply_allocation_constraints` (lines 621-630): when fewer
than `min_diversification` positions exceed 1%, force each of the top
`min_diversification` symbols that sits below 5% up to exactly 5%. -/
def forceDiversification (symbols : List String) (w : String → ℚ) : String → ℚ :=
  if nonZeroPositions symbols w < min_diversification then
    fun s => if s ∈ (topSymbols symbols w).take min_diversification ∧ w s < 1/20
      then 1/20 else w s
  else w

/-- Steps (d) of `apply_allocation_constraints` (lines 632-644): when the
total absolute turnover against `current_weights` exceeds `max_turnover`,
scale every weight delta by `max_turnover / total_turnover`. -/
def limitTurnover (symbols : List String) (current_weights w : String → ℚ) :
    String → ℚ :=
  if max_turnover < sumOver symbols fun s => |w s - current_weights s| then
    fun s => current_weights s + (w s - current_weights s) *
      (max_turnover / sumOver symbols fun t => |w t - current_weights t|)
  else w

/-- Step (e) of `apply_allocation_constraints` (lines 646-650): renormalize
to sum 1 when the total is positive. -/
def renormalize (symbols : List String) (w : String → ℚ) : String → ℚ :=
  if 0 < sumOver symbols w then fun s => w s / sumOver symbols w else w

/-- `apply_allocation_constraints` (lines 604-652): the five steps in
source order — cap, floor, diversification forcing, turnover limiting,
renormalization. -/
def apply_allocation_constraints (weights current_weights : String → ℚ)
    (symbols : List String) : String → ℚ :=
  renormalize symbols
    (limitTurnover symbols current_weights
      (forceDiversification symbols (floorWeights (capWeights weights))))

/-- The result object of a `scipy.optimize.minimize` call: its `success`
flag and its solution vector `x`. -/
structure MinimizeResult where
  success : Bool
  x : List ℚ
deriving DecidableEq

/-- `np.ones(n) / n`: the equal-weight vector. -/
def equal_weights (n : ℕ) : List ℚ :=
  List.replicate n (1 / (n : ℚ))

/-- `mean_variance_optimization` (lines 358-398), with the SLSQP call
abstracted: `some r` is the `minimize` result, `none` a raised exception.
On `result.success` the solution is returned, otherwise equal weights
(lines 390-394); an exception also yields equal weights (lines 396-398). -/
def mean_variance_optimization (solver : Option MinimizeResult) (n : ℕ) : List ℚ :=
  match solver with
  | some result => if result.success then result.x else equal_weights n
  | none => equal_weights n

/-- `risk_parity_optimization` (lines 400-435): same fallback structure as
mean-variance (lines 428-435). -/
def risk_parity_optimization (solver : Option MinimizeResult) (n : ℕ) : List ℚ :=
  match solver with
  | some result => if result.success then result.x else equal_weights n
  | none => equal_weights n

/-- `minimum_variance_optimization` (lines 475-506): same fallback
structure (lines 499-506). -/
def minimum_variance_optimization (solver : Option MinimizeResult) (n : ℕ) : List ℚ :=
  match solver with
  | some result => if result.success then result.x else equal_weights n
  | none => equal_weights n

/-- `black_litterman_optimization` (lines 437-473), with the closed-form
linear-algebra block (matrix inversions, lines 448-467) abstracted:
`some v` is the normalized weight vector the block computed, `none` a
raised exception (e.g. a singular matrix).  On exception the function
returns `current_weights` (line 473), not equal weights. -/
def black_litterman_optimization (linalg : Option (List ℚ))
    (current_weights : List ℚ) : List ℚ :=
  match linalg with
  | some bl_weights => bl_weights
  | none => current_weights

/-- The `bounds` list of `mean_variance_optimization` (lines 381-382):
`(min_weight, max_weight)` for every asset. -/
def mean_variance_bounds (n : ℕ) : List (ℚ × ℚ) :=
  List.replicate n (min_weight, max_weight)

/-- The `bounds` list of `risk_parity_optimization` (line 420):
`(0.01, max_weight)` for every asset — the lower bound is hard-coded to
1%, not `min_weight`. -/
def risk_parity_bounds (n : ℕ) : List (ℚ × ℚ) :=
  List.replicate n (1/100, max_weight)

/-- The `bounds` list of `minimum_variance_optimization` (lines 490-491):
`(min_weight, max_weight)` for every asset. -/
def minimum_variance_bounds (n : ℕ) : List (ℚ × ℚ) :=
  List.replicate n (min_weight, max_weight)

/-- Modelled from the spec: the meaning of a converged solver run.  The
scipy SLSQP internals are not part of the repository; per the spec, each
optimizer is a bounded program with equality constraint `Σw = 1` that
"must converge to a feasible point within tolerance", so a converged
candidate is a vector of the right length that satisfies its per-asset
bounds and sums to one. -/
def FeasiblePoint (bounds : List (ℚ × ℚ)) (w : List ℚ) : Prop :=
  w.length = bounds.length ∧ w.sum = 1 ∧
    ∀ p ∈ bounds.zip w, p.1.1 ≤ p.2 ∧ p.2 ≤ p.1.2

/-- Pointwise `a + b` on vectors (numpy elementwise addition). -/
def vecAdd (a b : List ℚ) : List ℚ := List.zipWith (· + ·) a b

/-- Pointwise `c * v` on a vector (numpy scalar multiplication). -/
def vecScale (c : ℚ) (v : List ℚ) : List ℚ := v.map fun x => c * x

/-- `ensemble_optimization_methods` (lines 508-537): the fixed-share
linear combination 0.3/0.3/0.2/0.2 of the four optimizer outputs, clipped
at zero and divided by its sum (lines 522-531).  The division is
unconditional in the source; the zero-total case (where numpy would
produce NaNs) lies outside the rational model and is never reached in the
theorems below. -/
def ensemble_optimization_methods (mv_weights rp_weights bl_weights min_var_weights
    : List ℚ) : List ℚ :=
  let ensemble := vecAdd (vecAdd (vecScale (3/10) mv_weights) (vecScale (3/10) rp_weights))
    (vecAdd (vecScale (1/5) bl_weights) (vecScale (1/5) min_var_weights))
  let clipped := ensemble.map fun x => max 0 x
  clipped.map fun x => x / clipped.sum

/-- The outcomes of the four abstracted numeric solver invocations inside
one `calculate_dynamic_allocation` call. -/
structure OptOutcomes where
  mv : Option MinimizeResult
  rp : Option MinimizeResult
  bl : Option (List ℚ)
  minv : Option MinimizeResult
deriving DecidableEq

/-- The request fields of `calculate_dynamic_allocation` that the modelled
pipeline reads.  `current_weights` is the caller's dictionary as an
association list in key-insertion order (Python dictionary keys are
unique).  `ml_predictions` and `risk_adjustment` only feed the abstracted
numeric solvers, so they are not carried. -/
structure RequestDict where
  current_weights : List (String × ℚ)
  market_regime : String
  regime_confidence : ℚ
deriving DecidableEq

/-- The argument of `calculate_dynamic_allocation`: either a dictionary or
any non-dictionary value (a JSON array, a number, `None`, ...), on which
`.get` raises `AttributeError`. -/
inductive InputData where
  | dict (d : RequestDict)
  | nondict
deriving DecidableEq

/-- The response dictionary, restricted to the keys the verified claims
examine; `none` means the key is absent from the returned dictionary. -/
structure Response where
  success : Option Bool
  optimal_weights : Option (List (String × ℚ))
  error : Option String
deriving DecidableEq

/-- Dictionary read with default: `d.get(s, 0)`. -/
def assocGet (l : List (String × ℚ)) (s : String) : ℚ :=
  (l.lookup s).getD 0

/-- The happy path of `calculate_dynamic_allocation` (lines 70-95): run
the four optimizers on the extracted symbols, blend them, apply the
regime tilts and then the allocation constraints. -/
def pipelineWeights (oo : OptOutcomes) (d : RequestDict) : String → ℚ :=
  let symbols := d.current_weights.map Prod.fst
  let cur := assocGet d.current_weights
  let n := symbols.length
  let mv_weights := mean_variance_optimization oo.mv n
  let rp_weights := risk_parity_optimization oo.rp n
  let bl_weights := black_litterman_optimization oo.bl (symbols.map cur)
  let min_var_weights := minimum_variance_optimization oo.minv n
  let ensemble := ensemble_optimization_methods mv_weights rp_weights bl_weights min_var_weights
  let tilted := apply_regime_tilts symbols (assocGet (symbols.zip ensemble))
    d.market_regime d.regime_confidence
  apply_allocation_constraints tilted cur symbols

/-- The happy-path return value of `calculate_dynamic_allocation`
(lines 112-130): `success: True` and the final weight dictionary.  Stages
that do not influence `optimal_weights` (metrics, justification,
timestamps) are not carried. -/
def successResponse (oo : OptOutcomes) (d : RequestDict) : Response :=
  ⟨some true,
    some ((d.current_weights.map Prod.fst).map fun s => (s, pipelineWeights oo d s)),
    none⟩

/-- `generate_fallback_allocation` (lines 883-903), restricted to the
modelled response keys: `success: False`, the echoed current weights, and
an error message. -/
def generate_fallback_allocation (current_weights : List (String × ℚ)) : Response :=
  ⟨some false, some current_weights,
    some "Dynamic allocation optimization failed - using current weights"⟩

/-- `calculate_dynamic_allocation` (lines 52-134).  A non-dictionary input
raises `AttributeError` at `input_data.get` (line 57); the `except`
handler (lines 132-134) then evaluates the local `current_weights`, which
was never assigned, so `UnboundLocalError` propagates to the caller.  A
dictionary with empty (or missing) `current_weights` returns the bare
`{"error": ...}` dictionary of line 68 — with no `success` key.
Otherwise the pipeline runs to the `success: True` return. -/
def calculate_dynamic_allocation (oo : OptOutcomes) (input_data : InputData) :
    Except String Response :=
  match input_data with
  | .nondict => .error "UnboundLocalError: current_weights referenced before assignment"
  | .dict d =>
    if d.current_weights = [] then .ok ⟨none, none, some "No current weights provided"⟩
    else .ok (successResponse oo d)

/-- Modelled from the spec: the regime tilt table as claim C5 and section
4.4 of the spec state it, for comparison with the source's
`regimeAdjustment`.  Under Bear it includes the growth reduction
`-0.10 * confidence`; Bull tilts growth `+0.10` and bonds `-0.05`;
Volatile and Stable apply nothing. -/
def claimRegimeAdjustment (market_regime : String) (regime_confidence : ℚ)
    (symbol : String) : ℚ :=
  (if market_regime = "Bull" ∧ tickerMatch symbol growthTickers then
    (1/10) * regime_confidence else 0)
  + (if market_regime = "Bull" ∧ tickerMatch symbol bondTickers then
    -(1/20) * regime_confidence else 0)
  + (if market_regime = "Bear" ∧ tickerMatch symbol defensiveTickers then
    (3/20) * regime_confidence else 0)
  + (if market_regime = "Bear" ∧ tickerMatch symbol growthTickers then
    -(1/10) * regime_confidence else 0)
  + (if market_regime = "Bear" ∧ tickerMatch symbol bondTickers then
    (1/10) * regime_confidence else 0)

/-- Modelled from the spec: `apply_regime_tilts` as claim C5 states it —
the claimed adjustments, then the same clipping and renormalization. -/
def claimApplyRegimeTilts (symbols : List String) (optimal_weights : String → ℚ)
    (market_regime : String) (regime_confidence : ℚ) : String → ℚ :=
  let tilted := fun s =>
    max 0 (optimal_weights s + claimRegimeAdjustment market_regime regime_confidence s)
  let total := sumOver symbols tilted
  if 0 < total then fun s => tilted s / total else tilted

/-- Total absolute turnover of a returned weight list against the caller's
current weights: `sum(abs(opt[s] - current.get(s, 0)))` over the returned
symbols. -/
def turnoverList (new_weights current_weights : List (String × ℚ)) : ℚ :=
  (new_weights.map fun p => |p.2 - assocGet current_weights p.1|).sum

/-- Projection of an `Except` response onto its returned weight list
(empty when no response or no `optimal_weights` key). -/
def responseWeights (x : Except String Response) : List (String × ℚ) :=
  match x with
  | .ok r => r.optimal_weights.getD []
  | .error _ => []

/-- The response value satisfies claim C7's description: it is a returned
dictionary whose `success` key is present and `False`. -/
def respSuccessFalse (x : Except String Response) : Prop :=
  ∃ r, x = .ok r ∧ r.success = some false

/-- A concrete caller snapshot driving several counterexample runs: five
symbols with full weight on the first two.  Every value lies in `[0,1]`,
which is all the interface requires of the `current_weights` map (no
field of the request demands that the snapshot sum to one). -/
def cexCur : List (String × ℚ) :=
  [("AAA", 1), ("BBB", 1), ("CCC", 0), ("DDD", 0), ("EEE", 0)]

/-- The request built on `cexCur`: Stable regime (no tilts), confidence
0.7. -/
def cexInput : InputData := .dict ⟨cexCur, "Stable", 7/10⟩

/-- The solver outcome in which every numeric solve fails — the
documented fallback path: the three SLSQP optimizers raise (yielding
equal weights) and the Black-Litterman linear algebra raises (yielding
the current weights). -/
def cexOutcomes : OptOutcomes := ⟨none, none, none, none⟩

/-! ### Arithmetic facts about `sumOver` -/

theorem sumOver_nil (f : String → ℚ) : sumOver [] f = 0 := rfl

theorem sumOver_cons (a : String) (l : List String) (f : String → ℚ) :
    sumOver (a :: l) f = f a + sumOver l f := by
  simp [sumOver]

theorem sumOver_nonneg {l : List String} {f : String → ℚ}
    (h : ∀ s ∈ l, 0 ≤ f s) : 0 ≤ sumOver l f := by
  induction l with
  | nil => simp [sumOver_nil]
  | cons a t ih =>
    rw [sumOver_cons]
    have ha := h a (by simp)
    have ht := ih fun s hs => h s (by simp [hs])
    linarith

theorem sumOver_pos {l : List String} {f : String → ℚ}
    (h : ∀ s ∈ l, 0 ≤ f s) (hx : ∃ s ∈ l, 0 < f s) : 0 < sumOver l f := by
  induction l with
  | nil => simp at hx
  | cons a t ih =>
    rw [sumOver_cons]
    have ha := h a (by simp)
    have ht : 0 ≤ sumOver t f := sumOver_nonneg fun s hs => h s (by simp [hs])
    obtain ⟨s, hs, hpos⟩ := hx
    rcases List.mem_cons.mp hs with rfl | hmem
    · linarith
    · have := ih (fun u hu => h u (by simp [hu])) ⟨s, hmem, hpos⟩
      linarith

theorem sumOver_div (l : List String) (f : String → ℚ) (t : ℚ) :
    sumOver l (fun s => f s / t) = sumOver l f / t := by
  induction l with
  | nil => simp [sumOver_nil]
  | cons a r ih => rw [sumOver_cons, sumOver_cons, ih, add_div]

theorem sumOver_mul_right (l : List String) (f : String → ℚ) (c : ℚ) :
    sumOver l (fun s => f s * c) = sumOver l f * c := by
  induction l with
  | nil => simp [sumOver_nil]
  | cons a r ih => rw [sumOver_cons, sumOver_cons, ih, add_mul]

theorem sumOver_add (l : List String) (f g : String → ℚ) :
    sumOver l (fun s => f s + g s) = sumOver l f + sumOver l g := by
  induction l with
  | nil => simp [sumOver_nil]
  | cons a r ih => rw [sumOver_cons, sumOver_cons, sumOver_cons, ih]; ring

theorem sumOver_congr {l : List String} {f g : String → ℚ}
    (h : ∀ s ∈ l, f s = g s) : sumOver l f = sumOver l g := by
  induction l with
  | nil => rfl
  | cons a r ih =>
    rw [sumOver_cons, sumOver_cons, h a (by simp), ih fun s hs => h s (by simp [hs])]

/-! ### The stable descending sort -/

theorem insertDesc_perm (w : String → ℚ) (a : String) (l : List String) :
    (insertDesc w a l).Perm (a :: l) := by
  induction l with
  | nil => rfl
  | cons b bs ih =>
    rw [insertDesc]
    split
    · exact List.Perm.refl _
    · exact (ih.cons b).trans (List.Perm.swap a b bs)

theorem sortDesc_perm (w : String → ℚ) (l : List String) :
    (sortDesc w l).Perm l := by
  induction l with
  | nil => rfl
  | cons a as ih => exact (insertDesc_perm w a (sortDesc w as)).trans (ih.cons a)

theorem mem_of_mem_topSymbols {symbols : List String} {w : String → ℚ} {s : String}
    (h : s ∈ topSymbols symbols w) : s ∈ symbols :=
  (sortDesc_perm w symbols).mem_iff.mp h

theorem topSymbols_ne_nil {symbols : List String} {w : String → ℚ}
    (h : symbols ≠ []) : topSymbols symbols w ≠ [] := by
  intro hnil
  have hlen := (sortDesc_perm w symbols).length_eq
  rw [show sortDesc w symbols = topSymbols symbols w from rfl, hnil] at hlen
  exact h (List.eq_nil_of_length_eq_zero hlen.symm)

theorem topSymbols_nodup {symbols : List String} {w : String → ℚ}
    (h : symbols.Nodup) : (topSymbols symbols w).Nodup :=
  ((sortDesc_perm w symbols).symm.nodup_iff).mp h

theorem length_topSymbols (symbols : List String) (w : String → ℚ) :
    (topSymbols symbols w).length = symbols.length :=
  (sortDesc_perm w symbols).length_eq

/-! ### Facts about the constraint projector steps -/

theorem floorCap_nonneg (w : String → ℚ) (s : String) :
    0 ≤ floorWeights (capWeights w) s := by
  simp only [floorWeights, capWeights, min_weight]
  split_ifs <;> linarith

theorem floorCap_le_max (w : String → ℚ) (s : String) :
    floorWeights (capWeights w) s ≤ max_weight := by
  simp only [floorWeights, capWeights, min_weight, max_weight]
  split_ifs <;> linarith

theorem forceDiversification_nonneg (symbols : List String) {w : String → ℚ}
    (s : String) (h : 0 ≤ w s) : 0 ≤ forceDiversification symbols w s := by
  by_cases hc : nonZeroPositions symbols w < min_diversification
  · simp only [forceDiversification, if_pos hc]
    split_ifs
    · norm_num
    · exact h
  · simp only [forceDiversification, if_neg hc]
    exact h

theorem forceDiversification_exists_pos {w : String → ℚ} (symbols : List String)
    (hne : symbols ≠ []) :
    ∃ s ∈ symbols, 0 < forceDiversification symbols w s := by
  by_cases hc : nonZeroPositions symbols w < min_diversification
  · cases htop : topSymbols symbols w with
    | nil => exact absurd htop (topSymbols_ne_nil hne)
    | cons t ts =>
      refine ⟨t, mem_of_mem_topSymbols (htop ▸ List.mem_cons_self t ts), ?_⟩
      have htmem : t ∈ (topSymbols symbols w).take min_diversification := by
        rw [htop]
        show t ∈ (t :: ts).take 3
        simp [List.take_succ_cons]
      simp only [forceDiversification, if_pos hc]
      split_ifs with hif
      · norm_num
      · have h20 : ¬ (w t < 1/20) := fun hlt => hif ⟨htmem, hlt⟩
        push_neg at h20
        linarith
  · push_neg at hc
    have hpos : 0 < nonZeroPositions symbols w :=
      lt_of_lt_of_le (by norm_num [min_diversification]) hc
    have hfne : (symbols.filter fun s => decide ((1:ℚ)/100 < w s)) ≠ [] := by
      intro h0
      rw [nonZeroPositions, h0] at hpos
      simp at hpos
    obtain ⟨s, hs⟩ := List.exists_mem_of_ne_nil _ hfne
    have hmem := List.mem_filter.mp hs
    refine ⟨s, hmem.1, ?_⟩
    simp only [forceDiversification, if_neg (not_lt.mpr hc)]
    have h100 : (1:ℚ)/100 < w s := by simpa using hmem.2
    linarith

theorem limitTurnover_nonneg (symbols : List String) (cur w : String → ℚ)
    (s : String) (hcur : 0 ≤ cur s) (hw : ∀ t, 0 ≤ w t) :
    0 ≤ limitTurnover symbols cur w s := by
  unfold limitTurnover
  split_ifs with h
  · have hT0 : 0 < sumOver symbols fun t => |w t - cur t| :=
      lt_trans (by norm_num [max_turnover]) h
    have hc0 : 0 < max_turnover / sumOver symbols fun t => |w t - cur t| :=
      div_pos (by norm_num [max_turnover]) hT0
    have hc1 : max_turnover / (sumOver symbols fun t => |w t - cur t|) < 1 :=
      (div_lt_one hT0).mpr h
    nlinarith [mul_nonneg (hw s) hc0.le, mul_nonneg hcur (sub_nonneg.mpr hc1.le)]
  · exact hw s

theorem sumOver_limitTurnover_pos (symbols : List String) (cur w : String → ℚ)
    (hcur : ∀ s ∈ symbols, 0 ≤ cur s) (hpos : 0 < sumOver symbols w) :
    0 < sumOver symbols (limitTurnover symbols cur w) := by
  unfold limitTurnover
  split_ifs with h
  · have hT0 : 0 < sumOver symbols fun t => |w t - cur t| :=
      lt_trans (by norm_num [max_turnover]) h
    have hc0 : 0 < max_turnover / sumOver symbols fun t => |w t - cur t| :=
      div_pos (by norm_num [max_turnover]) hT0
    have hc1 : max_turnover / (sumOver symbols fun t => |w t - cur t|) < 1 :=
      (div_lt_one hT0).mpr h
    have hrw : sumOver symbols (fun s => cur s + (w s - cur s) *
          (max_turnover / sumOver symbols fun t => |w t - cur t|))
        = sumOver symbols cur * (1 - max_turnover / sumOver symbols fun t => |w t - cur t|)
          + sumOver symbols w * (max_turnover / sumOver symbols fun t => |w t - cur t|) := by
      rw [← sumOver_mul_right, ← sumOver_mul_right, ← sumOver_add]
      exact sumOver_congr fun s _ => by ring
    rw [hrw]
    have h1 : 0 ≤ sumOver symbols cur := sumOver_nonneg hcur
    nlinarith [mul_pos hpos hc0, mul_nonneg h1 (sub_nonneg.mpr hc1.le)]
  · exact hpos

theorem sumOver_renormalize (symbols : List String) (w : String → ℚ)
    (hpos : 0 < sumOver symbols w) :
    sumOver symbols (renormalize symbols w) = 1 := by
  unfold renormalize
  rw [if_pos hpos, sumOver_div, div_self (ne_of_gt hpos)]

theorem renormalize_nonneg (symbols : List String) (w : String → ℚ) (s : String)
    (hs : 0 ≤ w s) : 0 ≤ renormalize symbols w s := by
  unfold renormalize
  split_ifs with h
  · exact div_nonneg hs h.le
  · exact hs

theorem sum_alloc_constraints_eq_one (w cur : String → ℚ) (symbols : List String)
    (hne : symbols ≠ []) (hcur : ∀ s ∈ symbols, 0 ≤ cur s) :
    sumOver symbols (apply_allocation_constraints w cur symbols) = 1 := by
  unfold apply_allocation_constraints
  have h2 : ∀ t, 0 ≤ floorWeights (capWeights w) t := floorCap_nonneg w
  have h3 : ∀ t, 0 ≤ forceDiversification symbols (floorWeights (capWeights w)) t :=
    fun t => forceDiversification_nonneg symbols t (h2 t)
  have hex : ∃ s ∈ symbols, 0 < forceDiversification symbols (floorWeights (capWeights w)) s :=
    forceDiversification_exists_pos symbols hne
  have h3pos : 0 < sumOver symbols (forceDiversification symbols (floorWeights (capWeights w))) :=
    sumOver_pos (fun s _ => h3 s) hex
  exact sumOver_renormalize _ _ (sumOver_limitTurnover_pos symbols cur _ hcur h3pos)

theorem sumOver_single (a : String) (f : String → ℚ) : sumOver [a] f = f a := by
  simp [sumOver]

theorem alloc_constraints_nonneg (w cur : String → ℚ) (symbols : List String)
    (s : String) (hs : s ∈ symbols) (hcur : ∀ t ∈ symbols, 0 ≤ cur t) :
    0 ≤ apply_allocation_constraints w cur symbols s := by
  unfold apply_allocation_constraints
  exact renormalize_nonneg _ _ _
    (limitTurnover_nonneg _ _ _ _ (hcur s hs)
      (fun t => forceDiversification_nonneg symbols t (floorCap_nonneg w t)))

theorem alloc_constraints_single (w cur : String → ℚ) (a : String)
    (hcur : 0 ≤ cur a) : apply_allocation_constraints w cur [a] a = 1 := by
  unfold apply_allocation_constraints
  have hcount : nonZeroPositions [a] (floorWeights (capWeights w)) < min_diversification := by
    have hle : nonZeroPositions [a] (floorWeights (capWeights w)) ≤ 1 :=
      List.length_filter_le _ _
    exact lt_of_le_of_lt hle (by norm_num [min_diversification])
  have h20 : 1/20 ≤ forceDiversification [a] (floorWeights (capWeights w)) a := by
    simp only [forceDiversification, if_pos hcount]
    split_ifs with hif
    · norm_num
    · have hmem : a ∈ (topSymbols [a] (floorWeights (capWeights w))).take min_diversification := by
        show a ∈ [a]
        simp
      have hge : ¬ (floorWeights (capWeights w) a < 1/20) := fun hlt => hif ⟨hmem, hlt⟩
      push_neg at hge
      exact hge
  have h3pos : 0 < forceDiversification [a] (floorWeights (capWeights w)) a :=
    lt_of_lt_of_le (by norm_num) h20
  have h4pos : 0 < limitTurnover [a] cur (forceDiversification [a] (floorWeights (capWeights w))) a := by
    unfold limitTurnover
    split_ifs with hT
    · have hT0 : 0 < sumOver [a] fun t =>
          |forceDiversification [a] (floorWeights (capWeights w)) t - cur t| :=
        lt_trans (by norm_num [max_turnover]) hT
      have hc0 : 0 < max_turnover / sumOver [a] fun t =>
          |forceDiversification [a] (floorWeights (capWeights w)) t - cur t| :=
        div_pos (by norm_num [max_turnover]) hT0
      have hc1 : max_turnover / (sumOver [a] fun t =>
          |forceDiversification [a] (floorWeights (capWeights w)) t - cur t|) < 1 :=
        (div_lt_one hT0).mpr hT
      nlinarith [mul_nonneg hcur (sub_nonneg.mpr hc1.le), mul_pos hc0 h3pos]
    · exact h3pos
  have hsumpos : 0 < sumOver [a]
      (limitTurnover [a] cur (forceDiversification [a] (floorWeights (capWeights w)))) := by
    rwa [sumOver_single]
  unfold renormalize
  rw [if_pos hsumpos]
  show limitTurnover [a] cur (forceDiversification [a] (floorWeights (capWeights w))) a /
    sumOver [a] (limitTurnover [a] cur (forceDiversification [a] (floorWeights (capWeights w)))) = 1
  rw [sumOver_single]
  exact div_self (ne_of_gt h4pos)

theorem assocGet_nonneg {l : List (String × ℚ)} (h : ∀ p ∈ l, 0 ≤ p.2) (s : String) :
    0 ≤ assocGet l s := by
  induction l with
  | nil => simp [assocGet, List.lookup]
  | cons p t ih =>
    obtain ⟨k, v⟩ := p
    by_cases hk : s == k
    · have : assocGet ((k, v) :: t) s = v := by simp [assocGet, List.lookup, hk]
      rw [this]
      exact h (k, v) (by simp)
    · have : assocGet ((k, v) :: t) s = assocGet t s := by
        simp [assocGet, List.lookup, hk]
      rw [this]
      exact ih fun p hp => h p (by simp [hp])

/-! ### Claim theorems -/

/-- C1: for every dictionary request with a non-empty `current_weights`
map (values in `[0,1]`) and any regime, confidence and solver outcomes,
`calculate_dynamic_allocation` answers `success: True` and the returned
`optimal_weights` sum to 1 within `1e-6` (in the rational model the sum
is exactly 1: the final renormalization divides by a provably positive
total). -/
theorem c1_success_weights_sum_to_one (oo : OptOutcomes) (d : RequestDict)
    (hne : d.current_weights ≠ [])
    (hvals : ∀ p ∈ d.current_weights, 0 ≤ p.2 ∧ p.2 ≤ 1) :
    ∃ r, calculate_dynamic_allocation oo (.dict d) = .ok r ∧ r.success = some true ∧
      |((r.optimal_weights.getD []).map Prod.snd).sum - 1| ≤ 1/1000000 := by
  refine ⟨successResponse oo d, ?_, rfl, ?_⟩
  · simp [calculate_dynamic_allocation, hne]
  · have hkeys : d.current_weights.map Prod.fst ≠ [] := by simpa using hne
    have hcur : ∀ t ∈ d.current_weights.map Prod.fst, 0 ≤ assocGet d.current_weights t :=
      fun t _ => assocGet_nonneg (fun p hp => (hvals p hp).1) t
    have hsum : sumOver (d.current_weights.map Prod.fst) (pipelineWeights oo d) = 1 := by
      simp only [pipelineWeights]
      exact sum_alloc_constraints_eq_one _ _ _ hkeys hcur
    show |(((successResponse oo d).optimal_weights.getD []).map Prod.snd).sum - 1| ≤ 1/1000000
    simp only [successResponse, Option.getD_some, List.map_map]
    have hcollapse : (d.current_weights.map
          (Prod.snd ∘ (fun s => (s, pipelineWeights oo d s)) ∘ Prod.fst)).sum
        = sumOver (d.current_weights.map Prod.fst) (pipelineWeights oo d) := by
      simp only [sumOver, List.map_map]
      rfl
    rw [hcollapse, hsum]
    norm_num

/-- Witness for C1 at a concrete two-asset request. -/
theorem c1_success_weights_sum_to_one_witness :
    (([("SPY", (1:ℚ)/2), ("TLT", 1/2)] : List (String × ℚ)) ≠ []) ∧
    (∃ r, calculate_dynamic_allocation ⟨none, none, none, none⟩
        (.dict ⟨[("SPY", 1/2), ("TLT", 1/2)], "Stable", 7/10⟩) = .ok r ∧
      r.success = some true ∧
      |((r.optimal_weights.getD []).map Prod.snd).sum - 1| ≤ 1/1000000) :=
  ⟨by decide, c1_success_weights_sum_to_one ⟨none, none, none, none⟩
    ⟨[("SPY", 1/2), ("TLT", 1/2)], "Stable", 7/10⟩ (by decide) (by decide)⟩

/-- C9: a single-symbol request (any weight in `[0,1]`, any regime and
confidence, any solver outcomes) gets `optimal_weights` equal to exactly
1.0 on that symbol: the projector caps the weight at `max_weight` and the
final renormalization divides the single positive weight by itself. -/
theorem c9_single_symbol_weight_one (oo : OptOutcomes) (sym : String) (x : ℚ)
    (regime : String) (conf : ℚ) (h0 : 0 ≤ x) (_hle : x ≤ 1) :
    ∃ r, calculate_dynamic_allocation oo (.dict ⟨[(sym, x)], regime, conf⟩) = .ok r ∧
      r.optimal_weights = some [(sym, 1)] := by
  refine ⟨successResponse oo ⟨[(sym, x)], regime, conf⟩, ?_, ?_⟩
  · simp [calculate_dynamic_allocation]
  · have hget : assocGet [(sym, x)] sym = x := by simp [assocGet, List.lookup]
    have hone : pipelineWeights oo ⟨[(sym, x)], regime, conf⟩ sym = 1 := by
      simp only [pipelineWeights]
      exact alloc_constraints_single _ _ _ (by rw [hget]; exact h0)
    simp only [successResponse]
    rw [show ([(sym, x)].map Prod.fst) = [sym] from rfl]
    simp [hone]

/-- Witness for C9 at a concrete one-asset request. -/
theorem c9_single_symbol_weight_one_witness :
    ((0:ℚ) ≤ 3/5) ∧ ((3:ℚ)/5 ≤ 1) ∧
    (∃ r, calculate_dynamic_allocation ⟨none, none, none, none⟩
        (.dict ⟨[("SPY", 3/5)], "Bear", 4/5⟩) = .ok r ∧
      r.optimal_weights = some [("SPY", 1)]) :=
  ⟨by decide, by decide,
    c9_single_symbol_weight_one ⟨none, none, none, none⟩ "SPY" (3/5) "Bear" (4/5)
      (by decide) (by decide)⟩

/-- C2: the claim is false on the code and the code contradicts its own
fallback contract.  For any non-dictionary input, `input_data.get` raises
`AttributeError`, and the `except` handler at lines 132-134 then reads
the local `current_weights`, which was never assigned, so
`UnboundLocalError` escapes `calculate_dynamic_allocation` instead of the
intended fallback response.  This theorem evaluates the embedded
orchestrator at the failing input. -/
theorem c2_nondict_input_raises (oo : OptOutcomes) :
    calculate_dynamic_allocation oo InputData.nondict =
      .error "UnboundLocalError: current_weights referenced before assignment" := rfl

/-- C3 counterexample: on the concrete request `cexInput` (all solvers
failing), the returned weights have total turnover `89/85 ≈ 1.047`
against `cexCur` — far above `max_turnover + 1e-6`.  The turnover-scaling
step did cap the turnover, but the final renormalization (dividing by a
total of `17/9`) broke it again. -/
theorem c3_final_turnover_exceeds_cap_cex :
    max_turnover + 1/1000000 <
      turnoverList (responseWeights (calculate_dynamic_allocation cexOutcomes cexInput)) cexCur := by
  decide

/-- C3 amended: the turnover cap holds for the weights produced by the
turnover-limiting step (d), before the final renormalization: for every
symbol list, current snapshot and incoming weights, the total absolute
turnover of `limitTurnover`'s output is at most `max_turnover`. -/
theorem c3_pre_renormalization_turnover_capped (symbols : List String)
    (cur w : String → ℚ) :
    sumOver symbols (fun s => |limitTurnover symbols cur w s - cur s|) ≤ max_turnover := by
  by_cases h : max_turnover < sumOver symbols fun t => |w t - cur t|
  · have hT0 : 0 < sumOver symbols fun t => |w t - cur t| :=
      lt_trans (by norm_num [max_turnover]) h
    have hc0 : 0 ≤ max_turnover / sumOver symbols fun t => |w t - cur t| :=
      (div_pos (by norm_num [max_turnover]) hT0).le
    have hrw : ∀ s ∈ symbols, |limitTurnover symbols cur w s - cur s|
        = |w s - cur s| * (max_turnover / sumOver symbols fun t => |w t - cur t|) := by
      intro s _
      simp only [limitTurnover, if_pos h]
      rw [show cur s + (w s - cur s) * (max_turnover / sumOver symbols fun t => |w t - cur t|)
            - cur s
          = (w s - cur s) * (max_turnover / sumOver symbols fun t => |w t - cur t|) from by ring,
        abs_mul, abs_of_nonneg hc0]
    rw [sumOver_congr hrw, sumOver_mul_right, mul_comm,
      div_mul_cancel₀ _ (ne_of_gt hT0)]
  · have hrw : ∀ s ∈ symbols, |limitTurnover symbols cur w s - cur s| = |w s - cur s| := by
      intro s _
      simp only [limitTurnover, if_neg h]
    rw [sumOver_congr hrw]
    exact not_lt.mp h

/-- C4 counterexample: on the concrete request `cexInput`, the symbol
`AAA` ends with final weight `83/170 ≈ 0.488`, above `max_weight = 0.4`:
turnover scaling pulled the capped weight back toward the current weight
of 1 and renormalization kept it there. -/
theorem c4_max_weight_violated_cex :
    max_weight < assocGet (responseWeights (calculate_dynamic_allocation cexOutcomes cexInput)) "AAA" := by
  decide

/-- C4 amended: the lower bound holds in the final result (every returned
weight is nonnegative whenever the current weights are), and the
`max_weight` bound holds after the cap and floor steps — but, as the
counterexample shows, not necessarily in the final result. -/
theorem c4_bounds_amended (w cur : String → ℚ) (symbols : List String) (s : String)
    (hs : s ∈ symbols) (hcur : ∀ t ∈ symbols, 0 ≤ cur t) :
    0 ≤ apply_allocation_constraints w cur symbols s ∧
      floorWeights (capWeights w) s ≤ max_weight :=
  ⟨alloc_constraints_nonneg w cur symbols s hs hcur, floorCap_le_max w s⟩

/-- Witness for C4's amended theorem at a concrete input. -/
theorem c4_bounds_amended_witness :
    ("AAA" ∈ ["AAA", "BBB"]) ∧
    (0 ≤ apply_allocation_constraints (fun _ => 1/2) (fun _ => 1/4) ["AAA", "BBB"] "AAA" ∧
      floorWeights (capWeights fun _ => 1/2) "AAA" ≤ max_weight) :=
  ⟨by decide, c4_bounds_amended (fun _ => 1/2) (fun _ => 1/4) ["AAA", "BBB"] "AAA"
    (by decide) (fun t _ => by norm_num)⟩

/-- C5 counterexample: under Bear regime with confidence 1 and equal
starting weights, the code's tilt step and the claim's description of it
(growth reduced by `0.10·confidence`) give different final weights for
the growth symbol QQQ: the code leaves QQQ at `2/5`, the claimed rule
gives `8/23`, because the Bear dictionary stores the growth reduction
under the key `reduce_growth` while the application loop only checks for
the key `growth_bias` — the tilt is defined but never applied. -/
theorem c5_bear_growth_tilt_cex :
    apply_regime_tilts ["QQQ", "TLT"] (assocGet [("QQQ", 1/2), ("TLT", 1/2)]) "Bear" 1 "QQQ" ≠
      claimApplyRegimeTilts ["QQQ", "TLT"] (assocGet [("QQQ", 1/2), ("TLT", 1/2)]) "Bear" 1 "QQQ" := by
  decide

/-- C5 amended: under Bear with confidence `c`, the adjustment actually
applied is `+0.15·c` for defensive-tagged symbols plus `+0.10·c` for
bond-tagged symbols; growth-tagged symbols receive no adjustment (the
`reduce_growth` entry is never read); under Volatile and Stable no
adjustment is applied — all before clipping and renormalization. -/
theorem c5_regime_adjustments_amended (conf : ℚ) (s : String) :
    regimeAdjustment "Bear" conf s =
      (if tickerMatch s defensiveTickers then 3/20 * conf else 0)
      + (if tickerMatch s bondTickers then 1/10 * conf else 0) ∧
    regimeAdjustment "Volatile" conf s = 0 ∧
    regimeAdjustment "Stable" conf s = 0 := by
  refine ⟨?_, ?_, ?_⟩
  · have h1 : (regime_tilts "Bear").lookup "growth_bias" = none := rfl
    have h2 : (regime_tilts "Bear").lookup "defensive_bias" = some (3/20) := rfl
    have h3 : (regime_tilts "Bear").lookup "reduce_bonds" = none := rfl
    have h4 : (regime_tilts "Bear").lookup "increase_bonds" = some (1/10) := rfl
    simp only [regimeAdjustment, h1, h2, h3, h4, Option.isSome_none, Option.isSome_some,
      Option.getD_some, Bool.false_eq_true, false_and, if_false, true_and]
    split_ifs <;> ring
  · have h1 : (regime_tilts "Volatile").lookup "growth_bias" = none := rfl
    have h2 : (regime_tilts "Volatile").lookup "defensive_bias" = none := rfl
    have h3 : (regime_tilts "Volatile").lookup "reduce_bonds" = none := rfl
    have h4 : (regime_tilts "Volatile").lookup "increase_bonds" = none := rfl
    simp [regimeAdjustment, h1, h2, h3, h4]
  · have h1 : (regime_tilts "Stable").lookup "growth_bias" = none := rfl
    have h2 : (regime_tilts "Stable").lookup "defensive_bias" = none := rfl
    have h3 : (regime_tilts "Stable").lookup "reduce_bonds" = none := rfl
    have h4 : (regime_tilts "Stable").lookup "increase_bonds" = none := rfl
    simp [regimeAdjustment, h1, h2, h3, h4]

/-- C6 counterexample: on an exception, `black_litterman_optimization`
returns the caller's current weights, not the equal-weight vector. -/
theorem c6_black_litterman_fallback_cex :
    black_litterman_optimization none [7/10, 3/10] ≠ equal_weights 2 := by
  decide

/-- C6 amended: mean-variance, risk-parity and minimum-variance return
the equal-weight vector both on a raised exception and on a
non-converged solve, but Black-Litterman, on its exception path, returns
the current weights vector instead. -/
theorem c6_fallback_weights_amended (n : ℕ) (x cur : List ℚ) :
    mean_variance_optimization none n = equal_weights n ∧
    mean_variance_optimization (some ⟨false, x⟩) n = equal_weights n ∧
    risk_parity_optimization none n = equal_weights n ∧
    risk_parity_optimization (some ⟨false, x⟩) n = equal_weights n ∧
    minimum_variance_optimization none n = equal_weights n ∧
    minimum_variance_optimization (some ⟨false, x⟩) n = equal_weights n ∧
    black_litterman_optimization none cur = cur :=
  ⟨rfl, rfl, rfl, rfl, rfl, rfl, rfl⟩

/-- C7 counterexample: on an empty `current_weights` the returned
dictionary has no `success` key at all (its `success` field is `none`),
so it does not contain `success=false` as the claim states. -/
theorem c7_no_success_field_cex :
    ¬ respSuccessFalse (calculate_dynamic_allocation cexOutcomes (.dict ⟨[], "Stable", 7/10⟩)) := by
  intro hex
  obtain ⟨r, hr, hs⟩ := hex
  rw [show calculate_dynamic_allocation cexOutcomes (.dict ⟨[], "Stable", 7/10⟩) =
    .ok ⟨none, none, some "No current weights provided"⟩ from rfl] at hr
  cases hr
  cases hs

/-- C7 amended: an empty `current_weights` map returns immediately,
without raising and independently of every solver outcome, the bare
`{"error": "No current weights provided"}` response — an `error` field
but no `success` (and no `optimal_weights`) field. -/
theorem c7_empty_weights_error_response (oo : OptOutcomes) (regime : String) (conf : ℚ) :
    calculate_dynamic_allocation oo (.dict ⟨[], regime, conf⟩) =
      .ok ⟨none, none, some "No current weights provided"⟩ := rfl

/-- C8 counterexample: on the concrete request `cexInput` (five symbols,
so `min(min_diversification, N) = 3`), only the two symbols `AAA` and
`BBB` end above 1% — `CCC`, `DDD`, `EEE` finish at `2/255 ≈ 0.78%` after
turnover scaling and renormalization. -/
theorem c8_diversification_count_cex :
    ((responseWeights (calculate_dynamic_allocation cexOutcomes cexInput)).filter
      fun p => (1:ℚ)/100 < p.2).length < min min_diversification cexCur.length := by
  decide

/-- C8 amended: immediately after the diversification-forcing step (c),
at least `min(min_diversification, N)` distinct symbols hold weight
above 1%; the later turnover scaling and renormalization can drop the
final count below that, as the counterexample shows. -/
theorem c8_diversification_after_forcing (symbols : List String) (w : String → ℚ)
    (hnd : symbols.Nodup) :
    min min_diversification symbols.length ≤
      nonZeroPositions symbols (forceDiversification symbols w) := by
  by_cases hc : nonZeroPositions symbols w < min_diversification
  · have hsub : ∀ s ∈ (topSymbols symbols w).take min_diversification, s ∈ symbols :=
      fun s hs => mem_of_mem_topSymbols (List.mem_of_mem_take hs)
    have hnodup : ((topSymbols symbols w).take min_diversification).Nodup :=
      (topSymbols_nodup hnd).sublist (List.take_sublist _ _)
    have hlen : ((topSymbols symbols w).take min_diversification).length
        = min min_diversification symbols.length := by
      rw [List.length_take, length_topSymbols]
    have hpred : ∀ s ∈ (topSymbols symbols w).take min_diversification,
        (1:ℚ)/100 < forceDiversification symbols w s := by
      intro s hs
      simp only [forceDiversification, if_pos hc]
      split_ifs with hif
      · norm_num
      · have hge : ¬ (w s < 1/20) := fun hlt => hif ⟨hs, hlt⟩
        push_neg at hge
        linarith
    have hsubf : (topSymbols symbols w).take min_diversification ⊆
        symbols.filter fun s => decide ((1:ℚ)/100 < forceDiversification symbols w s) := by
      intro s hs
      exact List.mem_filter.mpr ⟨hsub s hs, by simpa using hpred s hs⟩
    have hle := (hnodup.subperm hsubf).length_le
    rw [hlen] at hle
    exact hle
  · have heq : forceDiversification symbols w = w := by
      simp only [forceDiversification, if_neg hc]
    rw [heq]
    exact le_trans (min_le_left _ _) (not_lt.mp hc)

/-- Witness for C8's amended theorem at a concrete two-symbol input. -/
theorem c8_diversification_after_forcing_witness :
    (["AAA", "BBB"] : List String).Nodup ∧
    min min_diversification (["AAA", "BBB"] : List String).length ≤
      nonZeroPositions ["AAA", "BBB"] (forceDiversification ["AAA", "BBB"] fun _ => 0) :=
  ⟨by decide, c8_diversification_after_forcing ["AAA", "BBB"] (fun _ => 0) (by decide)⟩

theorem lower_bound_of_replicate_zip (lo hi : ℚ) :
    ∀ (w : List ℚ) (n : ℕ), w.length = n →
      (∀ p ∈ (List.replicate n (lo, hi)).zip w, p.1.1 ≤ p.2 ∧ p.2 ≤ p.1.2) →
      ∀ x ∈ w, lo ≤ x := by
  intro w
  induction w with
  | nil =>
    intro n _ _ x hx
    simp at hx
  | cons a as ih =>
    intro n hlen hall x hx
    cases n with
    | zero => simp at hlen
    | succ m =>
      rw [List.replicate_succ] at hall
      rcases List.mem_cons.mp hx with rfl | hmem
      · exact (hall ((lo, hi), x) (by simp [List.zip_cons_cons])).1
      · exact ih m (by simpa using hlen)
          (fun p hp => hall p (by simp [List.zip_cons_cons, hp])) x hmem

/-- C10: the risk-parity optimizer hard-codes the per-asset lower bound
to `0.01` (not `min_weight = 0`), so every feasible (converged) candidate
for it gives every asset at least 1%, while the mean-variance and
minimum-variance bound lists use the `min_weight = 0` lower bound. -/
theorem c10_risk_parity_lower_bound (n : ℕ) (w : List ℚ)
    (h : FeasiblePoint (risk_parity_bounds n) w) :
    (∀ x ∈ w, 1/100 ≤ x) ∧
    (∀ p ∈ risk_parity_bounds n, p.1 = 1/100) ∧
    (∀ p ∈ mean_variance_bounds n, p.1 = min_weight) ∧
    (∀ p ∈ minimum_variance_bounds n, p.1 = min_weight) ∧
    (1:ℚ)/100 ≠ min_weight := by
  obtain ⟨hlen, hsum, hbounds⟩ := h
  refine ⟨?_, ?_, ?_, ?_, by norm_num [min_weight]⟩
  · refine lower_bound_of_replicate_zip (1/100) max_weight w n ?_ ?_
    · simpa [risk_parity_bounds] using hlen
    · intro p hp
      exact hbounds p (by simpa [risk_parity_bounds] using hp)
  · intro p hp
    rw [List.eq_of_mem_replicate (show p ∈ List.replicate n ((1:ℚ)/100, max_weight) from hp)]
  · intro p hp
    rw [List.eq_of_mem_replicate (show p ∈ List.replicate n (min_weight, max_weight) from hp)]
  · intro p hp
    rw [List.eq_of_mem_replicate (show p ∈ List.replicate n (min_weight, max_weight) from hp)]

/-- Witness for C10 at a concrete feasible three-asset candidate. -/
theorem c10_risk_parity_lower_bound_witness :
    FeasiblePoint (risk_parity_bounds 3) [3/10, 3/10, 2/5] ∧
    (∀ x ∈ ([3/10, 3/10, 2/5] : List ℚ), 1/100 ≤ x) := by
  have hfeas : FeasiblePoint (risk_parity_bounds 3) [3/10, 3/10, 2/5] := by
    refine ⟨by decide, by decide, by decide⟩
  exact ⟨hfeas, (c10_risk_parity_lower_bound 3 [3/10, 3/10, 2/5] hfeas).1⟩
